import Mathlib

/-
Verification of the AssistedManipulation repository's forecasting and MPPI
components against its specification.

Shallow embedding conventions:
* C++ `double` values are modelled as rationals (ℚ); IEEE non-finite values,
  where the code distinguishes them, are modelled with `Option ℚ`
  (`none` = non-finite).
* `Eigen::MatrixXd` is modelled as `MatQ`: explicit row/column counts plus a
  total entry function (entries outside the stated bounds are junk, mirroring
  the fact that Eigen never reads them in well-defined executions).
* `Eigen::VectorXd` observations are modelled as `List ℚ`.
* Fallible construction (`create` returning `nullptr`) is modelled with
  `Option`; a failed `assert` is modelled as `Option.none` from the asserting
  function; dereferencing an absent `std::optional` (undefined behaviour) is
  modelled as a distinguished result constructor.
-/

/-! ## Vectors (Eigen::VectorXd as List ℚ) -/

/-- Componentwise vector addition (`operator+=` on `Eigen::VectorXd`). -/
def vadd (a b : List ℚ) : List ℚ := List.zipWith (· + ·) a b

/-- Scalar multiplication of a vector. -/
def vsmul (c : ℚ) (v : List ℚ) : List ℚ := v.map (fun x => c * x)

/-- Division of a vector by a natural number (`total / m_buffer.size()`). -/
def vdivn (v : List ℚ) (n : ℕ) : List ℚ := v.map (fun x => x / (n : ℚ))

/-- Sum of a list of vectors, exactly as `AverageForecast::update_average`
computes it: start from the first element and fold addition over the rest.
An empty list yields the empty vector (the C++ indexes `m_buffer[0]`, which is
never reached on an empty buffer). -/
def vsum : List (List ℚ) → List ℚ
  | [] => []
  | v :: vs => vs.foldl vadd v

/-- Arithmetic mean of a list of vectors (`update_average`). -/
def vmean (l : List (List ℚ)) : List ℚ := vdivn (vsum l) l.length

/-! ## Matrices (Eigen::MatrixXd as MatQ) -/

/-- A dynamically sized rational matrix: stated dimensions plus a total entry
function. Entries at indices at or beyond `rows`/`cols` are meaningless junk. -/
structure MatQ where
  rows : ℕ
  cols : ℕ
  entry : ℕ → ℕ → ℚ

/-- Matrix product. -/
def MatQ.mul (A B : MatQ) : MatQ :=
  ⟨A.rows, B.cols, fun i j => ∑ k ∈ Finset.range A.cols, A.entry i k * B.entry k j⟩

/-- Matrix sum. -/
def MatQ.add (A B : MatQ) : MatQ :=
  ⟨A.rows, A.cols, fun i j => A.entry i j + B.entry i j⟩

/-- Matrix transpose. -/
def MatQ.transpose (A : MatQ) : MatQ :=
  ⟨A.cols, A.rows, fun i j => A.entry j i⟩

/-- Identity matrix of a given size (`MatrixXd::Identity(n, n)`). -/
def MatQ.identity (n : ℕ) : MatQ :=
  ⟨n, n, fun i j => if i = j then 1 else 0⟩

/-- Scalar multiple of a matrix. -/
def MatQ.scale (c : ℚ) (A : MatQ) : MatQ :=
  ⟨A.rows, A.cols, fun i j => c * A.entry i j⟩

/-! ## KalmanFilter (src/src/tests/reach.cpp, `controller/kalman.cpp` part) -/

/-- `KalmanFilter::Configuration`. The vector `initial_state` is a
states-by-one matrix, as the dimension check in `create` expects. -/
structure KalmanFilter.Configuration where
  observed_states : ℕ
  states : ℕ
  state_transition_matrix : MatQ
  transition_covariance : MatQ
  observation_matrix : MatQ
  observation_covariance : MatQ
  initial_state : MatQ
  initial_covariance : MatQ

/-- The state of a `KalmanFilter` object: exactly the member variables set up
by the `KalmanFilter` constructor. -/
structure KalmanFilter where
  m_observed_state_size : ℕ
  m_estimated_state_size : ℕ
  m_state_transition_matrix : MatQ
  m_transition_covariance : MatQ
  m_observation_matrix : MatQ
  m_observation_covariance : MatQ
  m_identity : MatQ
  m_covariance : MatQ
  m_state : MatQ
  m_next_state : MatQ

/-- The `KalmanFilter(const Configuration &)` constructor body. -/
def KalmanFilter.ofConfiguration (config : KalmanFilter.Configuration) : KalmanFilter :=
  { m_observed_state_size := config.observed_states
    m_estimated_state_size := config.states
    m_state_transition_matrix := config.state_transition_matrix
    m_transition_covariance := config.transition_covariance
    m_observation_matrix := config.observation_matrix
    m_observation_covariance := config.observation_covariance
    m_identity := MatQ.identity config.states
    m_covariance := config.initial_covariance
    m_state := config.initial_state
    m_next_state := config.state_transition_matrix.mul config.initial_state }

/-- The shape test applied by the static `check_dimensions` lambda inside
`KalmanFilter::create`. -/
def check_dimensions (matrix : MatQ) (rows cols : ℕ) : Bool :=
  matrix.rows == rows && matrix.cols == cols

/-- `KalmanFilter::create`: validates every configuration matrix shape and
returns `none` (a null pointer) when any is wrong; otherwise constructs the
filter from the configuration. (The C++ builds and discards one scratch filter
before returning a freshly constructed one; the returned object is exactly
`ofConfiguration`.) -/
def KalmanFilter.create (configuration : KalmanFilter.Configuration) : Option KalmanFilter :=
  let valid :=
    check_dimensions configuration.state_transition_matrix
      configuration.states configuration.states &&
    check_dimensions configuration.transition_covariance
      configuration.states configuration.states &&
    check_dimensions configuration.observation_matrix
      configuration.observed_states configuration.states &&
    check_dimensions configuration.observation_covariance
      configuration.observed_states configuration.observed_states &&
    check_dimensions configuration.initial_state
      configuration.states 1 &&
    check_dimensions configuration.initial_covariance
      configuration.states configuration.states
  if valid then some (KalmanFilter.ofConfiguration configuration) else none

/-- `KalmanFilter::predict(bool update_covariance)`: advance the estimate one
step; propagate the covariance when requested. The declaration of this member
lives in the repository header `controller/kalman.hpp`, which is not under
src/; only its definition body is. The default value of `update_covariance`
used by the argument-free call in `KalmanForecast::update(double)` is modelled
as `true`, following that call site's comment ("propagate process
covariance"). -/
def KalmanFilter.predict (f : KalmanFilter) (update_covariance : Bool) : KalmanFilter :=
  let state := f.m_next_state
  { f with
    m_state := state
    m_next_state := f.m_state_transition_matrix.mul state
    m_covariance :=
      if update_covariance then
        ((f.m_state_transition_matrix.mul f.m_covariance).mul
          f.m_state_transition_matrix.transpose).add f.m_transition_covariance
      else f.m_covariance }

/-! ## KalmanForecast (src/src/tests/reach.cpp, `controller/forecast.cpp` part) -/

/-- `KalmanForecast::factorial` (unsigned int recursion, `n <= 1` base case). -/
def KalmanForecast.factorial : ℕ → ℕ
  | 0 => 1
  | 1 => 1
  | n + 2 => (n + 2) * KalmanForecast.factorial (n + 1)

/-- The sequence of assignments `matrix(row, col) = 1 / factorial(i) *
std::pow(time_step, i)` performed by the triple loop in
`KalmanForecast::create_euler_state_transition_matrix`, in execution order.
`1 / factorial(i)` is C++ integer division of `1` by an `unsigned int` and is
embedded as natural-number division before the conversion to `double`.
When `order > observed_states` some produced row indices fall outside the
matrix (undefined behaviour in Eigen); here they become writes to out-of-range
positions of the total entry function. -/
def transitionWrites (time_step : ℚ) (observed_states order : ℕ) : List (ℕ × ℕ × ℚ) :=
  (List.range (order + 1)).flatMap fun derivative =>
    (List.range observed_states).flatMap fun state =>
      (List.range (order - derivative + 1)).map fun i =>
        (derivative * order + state,
         derivative * observed_states + i * observed_states + state,
         ((1 / KalmanForecast.factorial i : ℕ) : ℚ) * time_step ^ i)

/-- `KalmanForecast::create_euler_state_transition_matrix`: a zeroed
states-by-states matrix to which the loop's writes are applied in order
(later writes overwrite earlier ones). -/
def KalmanForecast.create_euler_state_transition_matrix
    (time_step : ℚ) (observed_states order : ℕ) : MatQ :=
  let states := observed_states * (order + 1)
  ⟨states, states,
    (transitionWrites time_step observed_states order).foldl
      (fun m w => fun r c => if r = w.1 ∧ c = w.2.1 then w.2.2 else m r c)
      (fun _ _ => 0)⟩

/-- `KalmanForecast::create_euler_state_transition_covariance_matrix`
(identity times 1e-8). -/
def KalmanForecast.create_euler_state_transition_covariance_matrix
    (_time_step : ℚ) (observed_states order : ℕ) : MatQ :=
  MatQ.scale (1 / 10 ^ 8) (MatQ.identity (observed_states * (order + 1)))

/-- The Taylor-integration state-transition matrix described by the
specification ("the row for derivative k of observed coordinate j has entry
Δ^i/i! in the column for derivative k+i of the same coordinate j, for every i
in 0..n−k, and zero everywhere else"). Stated from the spec's words, to be
compared against `KalmanForecast.create_euler_state_transition_matrix`. -/
def taylorTransitionEntry (time_step : ℚ) (d n : ℕ) (r c : ℕ) : ℚ :=
  let k := r / d
  let j := r % d
  let i := c / d - k
  if r < d * (n + 1) ∧ c < d * (n + 1) ∧ c % d = j ∧ k ≤ c / d then
    time_step ^ i / (Nat.factorial i : ℚ)
  else 0

/-- The member state of a `KalmanForecast` object. The mutex and the
`m_measurement` scratch buffer are not modelled. The prediction buffer is a
d-by-(steps+1) matrix of columns, modelled as a total function from column
index to observed-state vector. -/
structure KalmanForecast where
  m_observed_states : ℕ
  m_estaimted_states : ℕ
  m_horison : ℚ
  m_time_step : ℚ
  m_steps : ℕ
  m_last_update : ℚ
  m_filter : KalmanFilter
  m_predictor : KalmanFilter
  m_prediction : ℕ → List ℚ

/-- `KalmanForecast::Configuration` (fields read by `KalmanForecast::create`). -/
structure KalmanForecast.Configuration where
  observed_states : ℕ
  order : ℕ
  time_step : ℚ
  horison : ℚ
  initial_state : List ℚ

/-- `KalmanForecast::create`: builds the Kalman filter configuration (Taylor
transition matrix, `[I | 0]` observation matrix, 1e-8 covariances, initial
state padded with zero derivatives), creates the filter and the predictor, and
fails if either fails. The freshly allocated prediction buffer is uninitialised
memory in the C++; it is modelled as zero columns. -/
def KalmanForecast.create (configuration : KalmanForecast.Configuration) :
    Option KalmanForecast :=
  let states := configuration.observed_states * (configuration.order + 1)
  let observation_matrix : MatQ :=
    ⟨configuration.observed_states, states,
     fun i j => if i < configuration.observed_states ∧
                   j < configuration.observed_states ∧ i = j then 1 else 0⟩
  let observation_covariance_matrix : MatQ :=
    MatQ.scale (1 / 10 ^ 8) (MatQ.identity configuration.observed_states)
  let initial_state : MatQ :=
    ⟨states, 1,
     fun i _ => if i < configuration.observed_states then
                  configuration.initial_state.getD i 0 else 0⟩
  let kalman_configuration : KalmanFilter.Configuration :=
    { observed_states := configuration.observed_states
      states := states
      state_transition_matrix :=
        KalmanForecast.create_euler_state_transition_matrix
          configuration.time_step configuration.observed_states configuration.order
      transition_covariance :=
        KalmanForecast.create_euler_state_transition_covariance_matrix
          configuration.time_step configuration.observed_states configuration.order
      observation_matrix := observation_matrix
      observation_covariance := observation_covariance_matrix
      initial_state := initial_state
      initial_covariance := MatQ.scale (1 / 10 ^ 8) (MatQ.identity states) }
  match KalmanFilter.create kalman_configuration,
        KalmanFilter.create kalman_configuration with
  | some filter, some predictor =>
      some
        { m_observed_states := filter.m_observed_state_size
          m_estaimted_states := filter.m_estimated_state_size
          m_horison := configuration.horison
          m_time_step := configuration.time_step
          m_steps := ⌈configuration.horison / configuration.time_step⌉.toNat
          m_last_update := 0
          m_filter := filter
          m_predictor := predictor
          m_prediction := fun _ => List.replicate configuration.observed_states 0 }
  | _, _ => none

/-- `KalmanForecast::update(double time)`: the observation-free overload. It
only calls `m_filter->predict()`; the `time` argument is ignored and no other
member is touched. -/
def KalmanForecast.update_time (kf : KalmanForecast) (_time : ℚ) : KalmanForecast :=
  { kf with m_filter := kf.m_filter.predict true }

/-- Truncation toward zero, the semantics of the C++ cast `(int)t`. -/
def cppTrunc (q : ℚ) : ℤ := if 0 ≤ q then ⌊q⌋ else -⌊-q⌋

/-- `KalmanForecast::forecast(double time)`. The failing `assert(time >=
m_last_update)` is modelled as `none`. Past `m_horison` — the configured
horizon duration compared against the absolute query time — the last
prediction column (`rightCols(1)`, column `m_steps`) is returned. Otherwise
the two columns around `(time - m_last_update) / m_time_step` are linearly
interpolated, the lower index being the C++ `(int)` cast of that ratio. -/
def KalmanForecast.forecast (kf : KalmanForecast) (time : ℚ) : Option (List ℚ) :=
  if time < kf.m_last_update then none
  else if kf.m_horison < time then some (kf.m_prediction kf.m_steps)
  else
    let t := (time - kf.m_last_update) / kf.m_time_step
    let lower := cppTrunc t
    let upper := lower + 1
    let s := t - (lower : ℚ)
    some (vadd (vsmul (1 - s) (kf.m_prediction lower.toNat))
               (vsmul s (kf.m_prediction upper.toNat)))

/-- The forecast behaviour asserted by the claim, written from the spec's
words: clamp the query time to the window [last_update, last_update + horizon]
and linearly interpolate, by the fractional part of (t − last_update)/Δ,
between the two bracketing prediction columns. Stated for comparison with
`KalmanForecast.forecast`. -/
def forecastClaimed (kf : KalmanForecast) (time : ℚ) : List ℚ :=
  let clamped := max kf.m_last_update (min time (kf.m_last_update + kf.m_horison))
  let t := (clamped - kf.m_last_update) / kf.m_time_step
  let lower := ⌊t⌋.toNat
  let s := t - (⌊t⌋ : ℚ)
  vadd (vsmul (1 - s) (kf.m_prediction lower)) (vsmul s (kf.m_prediction (lower + 1)))

/-! ## AverageForecast (src/src/tests/reach.cpp, `controller/forecast.cpp` part) -/

/-- The smallest positive normalised `double`, `std::numeric_limits<double>::min()`,
the timestamp of the placeholder observation installed by the
`AverageForecast` constructor. -/
def dblMin : ℚ := 1 / 2 ^ 1022

/-- The member state of an `AverageForecast`: the eviction window, the ring of
timestamped observations (oldest first), and the cached average. The mutex is
not modelled. -/
structure AverageForecast where
  m_window : ℚ
  m_buffer : List (ℚ × List ℚ)
  m_average : List ℚ

/-- The `AverageForecast(double window, unsigned int states)` constructor:
zero average and one placeholder observation of zeroes at time `DBL_MIN`. -/
def AverageForecast.init (window : ℚ) (states : ℕ) : AverageForecast :=
  { m_window := window
    m_buffer := [(dblMin, List.replicate states 0)]
    m_average := List.replicate states 0 }

/-- `AverageForecast::create`: rejects a negative window. -/
def AverageForecast.create (window : ℚ) (states : ℕ) : Option AverageForecast :=
  if window < 0 then none else some (AverageForecast.init window states)

/-- The index of the first buffer element strictly newer than `time − window`,
as located by the `std::upper_bound` call in
`AverageForecast::clear_old_measurements` (the buffer is kept sorted by
timestamp, so the range is partitioned for this predicate and `upper_bound`
returns the first satisfying position); when there is none, the iterator is
stepped back one element so the most recent measurement is kept. -/
def evictIndex (cut : ℚ) (l : List (ℚ × List ℚ)) : ℕ :=
  let k := l.findIdx (fun e => decide (cut < e.1))
  if k = l.length then l.length - 1 else k

/-- `AverageForecast::clear_old_measurements`: erase the prefix of elements at
positions before `evictIndex`. -/
def AverageForecast.clear_old_measurements (af : AverageForecast) (time : ℚ) :
    AverageForecast :=
  { af with m_buffer := af.m_buffer.drop (evictIndex (time - af.m_window) af.m_buffer) }

/-- `AverageForecast::update_average`: recompute the cached mean from the
buffer. -/
def AverageForecast.update_average (af : AverageForecast) : AverageForecast :=
  { af with m_average := vmean (af.m_buffer.map Prod.snd) }

/-- `AverageForecast::update(double time)` (observation-free overload). -/
def AverageForecast.update_time (af : AverageForecast) (time : ℚ) : AverageForecast :=
  (af.clear_old_measurements time).update_average

/-- The timestamp of the most recent buffered observation
(`m_buffer.back().first`; the buffer is never empty). -/
def newestTime (af : AverageForecast) : ℚ := (af.m_buffer.getLastD (0, [])).1

/-- `AverageForecast::update(VectorXd measurement, double time)`: measurements
older than the newest buffered timestamp are ignored; otherwise the
measurement is appended, old measurements are evicted, and the average is
recomputed. -/
def AverageForecast.update_obs (af : AverageForecast) (measurement : List ℚ)
    (time : ℚ) : AverageForecast :=
  if time < newestTime af then af
  else
    (AverageForecast.clear_old_measurements
      { af with m_buffer := af.m_buffer ++ [(time, measurement)] } time).update_average

/-- `AverageForecast::forecast(double)`: returns the cached average, ignoring
the query time. -/
def AverageForecast.forecast (af : AverageForecast) (_time : ℚ) : List ℚ :=
  af.m_average

/-- The buffer contents asserted by the claim: exactly the observations
strictly newer than the cutoff, plus always the most recent one (which is the
whole filter result when that is nonempty, since the buffer is sorted). -/
def claimedKeep (l : List (ℚ × List ℚ)) (cut : ℚ) : List (ℚ × List ℚ) :=
  let keep := l.filter (fun e => decide (cut < e.1))
  if keep = [] then (match l.getLast? with | some e => [e] | none => []) else keep

/-- The states an `AverageForecast` can reach: constructed by `create` and
then updated by any sequence of the two update overloads. -/
inductive AverageForecast.Reachable : AverageForecast → Prop where
  | init (window : ℚ) (states : ℕ) (af : AverageForecast) :
      AverageForecast.create window states = some af → AverageForecast.Reachable af
  | stepTime (af : AverageForecast) (time : ℚ) :
      AverageForecast.Reachable af → AverageForecast.Reachable (af.update_time time)
  | stepObs (af : AverageForecast) (measurement : List ℚ) (time : ℚ) :
      AverageForecast.Reachable af →
      AverageForecast.Reachable (af.update_obs measurement time)

/-- Invariants maintained by every reachable `AverageForecast` state. -/
structure AverageForecast.Inv (af : AverageForecast) : Prop where
  nonempty : af.m_buffer ≠ []
  sorted : af.m_buffer.Pairwise (fun a b => a.1 ≤ b.1)
  window_nonneg : 0 ≤ af.m_window
  fresh : ∀ e ∈ af.m_buffer, newestTime af - af.m_window < e.1 ∨ af.m_buffer.length = 1
  avg : af.m_average = vmean (af.m_buffer.map Prod.snd)

/-! ## Forecast dispatch (src/src/tests/reach.cpp, `Forecast::create`) -/

/-- Modelled from the spec: the LOCF forecaster's configuration. Its
definition lives in `controller/forecast.hpp`, which is not under src/; the
spec says only that LOCF "returns the most recent observation verbatim", so
the configuration carries no data relevant to the claims. -/
structure LOCFConfiguration where
  states : ℕ

/-- Modelled from the spec: a LOCF forecaster ("returns the most recent
observation verbatim"); its class is not under src/. Only its successful
construction matters to the claims. -/
structure LOCFForecast where
  states : ℕ

/-- Modelled from the spec: `LOCFForecast::create`, not under src/; modelled
as always succeeding. -/
def LOCFForecast.create (configuration : LOCFConfiguration) : LOCFForecast :=
  ⟨configuration.states⟩

/-- `AverageForecast::Configuration` (window and state count). -/
structure AverageConfiguration where
  window : ℚ
  states : ℕ

/-- `Forecast::Configuration::Type`: the enumerated forecaster kind. `invalid`
models any enumerator value outside the three named ones, which the C++ enum
can carry. -/
inductive ForecastType where
  | locf
  | average
  | kalman
  | invalid
deriving DecidableEq

/-- `Forecast::Configuration`: the selected type and one `std::optional`
configuration member per variant. -/
structure ForecastConfiguration where
  type : ForecastType
  locf : Option LOCFConfiguration
  average : Option AverageConfiguration
  kalman : Option KalmanForecast.Configuration

/-- A constructed forecaster of one of the three variants. -/
inductive ForecastKind where
  | locf (f : LOCFForecast)
  | average (f : AverageForecast)
  | kalman (f : KalmanForecast)

/-- Result of `Forecast::create`: a forecaster, a null pointer (`fail`), or
the undefined behaviour of dereferencing an absent `std::optional`
(`deref_absent`). -/
inductive CreateResult where
  | ok (f : ForecastKind)
  | fail
  | deref_absent

/-- `Forecast::create`: dispatches on the configured type. Note that the
AVERAGE branch tests `configuration.locf` for presence (as the source does)
and then dereferences `configuration.average` without any check. -/
def Forecast.create (configuration : ForecastConfiguration) : CreateResult :=
  if configuration.type = ForecastType.locf then
    match configuration.locf with
    | none => CreateResult.fail
    | some c => CreateResult.ok (ForecastKind.locf (LOCFForecast.create c))
  else if configuration.type = ForecastType.average then
    match configuration.locf with
    | none => CreateResult.fail
    | some _ =>
      match configuration.average with
      | none => CreateResult.deref_absent
      | some c =>
        match AverageForecast.create c.window c.states with
        | none => CreateResult.fail
        | some f => CreateResult.ok (ForecastKind.average f)
  else if configuration.type = ForecastType.kalman then
    match configuration.kalman with
    | none => CreateResult.fail
    | some c =>
      match KalmanForecast.create c with
      | none => CreateResult.fail
      | some f => CreateResult.ok (ForecastKind.kalman f)
  else CreateResult.fail

/-! ## Gaussian sampler (src/src/mppi.hpp, `mppi::Gaussian`) -/

/-- `mppi::Gaussian::set_covariance`: the stored transform `m_transform =
V * Λ^{1/2}` built from the output of the self-adjoint eigensolver. The
eigensolver itself is Eigen library code; its output is abstracted as the pair
of an eigenvector matrix and an eigenvalue vector, constrained in the theorems
by the decomposition contract `covariance = V * diagonal Λ * Vᵀ` with `V`
orthogonal. `cwiseSqrt` is abstracted as a square-root function `sqrtf` with
`sqrtf 0 = 0`. -/
def gaussianTransform (sqrtf : ℚ → ℚ) {m : ℕ}
    (eigenvectors : Matrix (Fin m) (Fin m) ℚ) (eigenvalues : Fin m → ℚ) :
    Matrix (Fin m) (Fin m) ℚ :=
  eigenvectors * Matrix.diagonal (fun i => sqrtf (eigenvalues i))

/-- `mppi::Gaussian::operator()`: a draw is the mean plus the stored transform
applied to a vector `z` of independent standard-normal samples; the samples
are abstracted as an arbitrary input vector. -/
def gaussianDraw {m : ℕ} (mean : Fin m → ℚ) (transform : Matrix (Fin m) (Fin m) ℚ)
    (z : Fin m → ℚ) : Fin m → ℚ :=
  mean + transform.mulVec z

/-! ## AssistedManipulation objective
(src/src/frankaridgeback/objective/assisted_manipulation.cpp) -/

/-- `QuadraticCost` configuration entry: a limit plus constant and quadratic
penalty coefficients. -/
structure QuadraticCost where
  limit : ℚ
  constant_cost : ℚ
  quadratic_cost : ℚ

/-- `AssistedManipulation::Configuration` (fields read by `get_cost` and the
component cost functions). -/
structure AMConfiguration where
  enable_minimise_power : Bool
  enable_maximise_manipulability : Bool
  enable_joint_limit : Bool
  enable_reach_limit : Bool
  enable_variable_damping : Bool
  lower_joint_limit : ℕ → QuadraticCost
  upper_joint_limit : ℕ → QuadraticCost
  maximum_reach : QuadraticCost
  minimum_reach : QuadraticCost
  minimum_manipulability : QuadraticCost
  maximum_power : QuadraticCost

/-- The quantities `get_cost` and the component costs read from the dynamics
and state arguments: `dynamics->get_power()`, the value of
`sqrt(det(J * Jᵀ))`, the joint positions `state.position()(i)`, and the norm
of the base-to-gripper frame offset
`dynamics->get_frame_offset(BASE_LINK_JOINT, PANDA_GRASP_JOINT).norm()`.
These involve library kinematics and are abstracted as given rationals. -/
structure CostInputs where
  power : ℚ
  ellipsoid_volume : ℚ
  position : ℕ → ℚ
  reach_offset_norm : ℚ

/-- `FrankaRidgeback::DoF::JOINTS`: the joint count iterated over by
`joint_limit_cost`. -/
def DoF.JOINTS : ℕ := 12

/-- The mutable cost members of an `AssistedManipulation` object. The
constructor leaves `m_variable_damping_cost` uninitialised; `AMState.init`
takes its junk value as a parameter. -/
structure AMState where
  m_cost : ℚ
  m_power_cost : ℚ
  m_manipulability_cost : ℚ
  m_joint_cost : ℚ
  m_reach_cost : ℚ
  m_variable_damping_cost : ℚ

/-- The `AssistedManipulation` constructor: all tracked costs start at zero
except the uninitialised `m_variable_damping_cost`. -/
def AMState.init (junk : ℚ) : AMState :=
  { m_cost := 0, m_power_cost := 0, m_manipulability_cost := 0,
    m_joint_cost := 0, m_reach_cost := 0, m_variable_damping_cost := junk }

/-- `AssistedManipulation::power_cost`. -/
def AssistedManipulation.power_cost (cfg : AMConfiguration) (inp : CostInputs) : ℚ :=
  let maximum := cfg.maximum_power
  if inp.power < maximum.limit then 0
  else maximum.constant_cost + max 0 (maximum.quadratic_cost * (inp.power - maximum.limit))

/-- `AssistedManipulation::manipulability_cost`: the ellipsoid volume is
clipped below at 1e-10 before the reciprocal is squared. -/
def AssistedManipulation.manipulability_cost (cfg : AMConfiguration)
    (inp : CostInputs) : ℚ :=
  let minimum := cfg.minimum_manipulability
  let volume := if inp.ellipsoid_volume < 1 / 10 ^ 10 then 1 / 10 ^ 10
                else inp.ellipsoid_volume
  minimum.quadratic_cost * (1 / volume) ^ 2

/-- `AssistedManipulation::joint_limit_cost`. Note the source applies
`lower.quadratic_cost` in the upper-limit branch as well. -/
def AssistedManipulation.joint_limit_cost (cfg : AMConfiguration)
    (inp : CostInputs) : ℚ :=
  (List.range DoF.JOINTS).foldl
    (fun cost i =>
      let lower := cfg.lower_joint_limit i
      let upper := cfg.upper_joint_limit i
      let position := inp.position i
      if position < lower.limit then
        cost + (lower.constant_cost + lower.quadratic_cost * (lower.limit - position) ^ 2)
      else if upper.limit < position then
        cost + (upper.constant_cost + lower.quadratic_cost * (position - upper.limit) ^ 2)
      else cost)
    0

/-- The penalty accumulated into the local variable `cost` by
`AssistedManipulation::reach_cost`: constant plus quadratic terms for offsets
outside [minimum_reach.limit, maximum_reach.limit]. -/
def AssistedManipulation.reach_penalty (cfg : AMConfiguration)
    (inp : CostInputs) : ℚ :=
  let mn := cfg.minimum_reach
  let mx := cfg.maximum_reach
  let offset := inp.reach_offset_norm
  if offset < mn.limit then
    0 + (mn.constant_cost + mn.quadratic_cost * (offset - mn.limit) ^ 2)
  else if mx.limit < offset then
    0 + (mx.constant_cost + mx.quadratic_cost * (offset - mx.limit) ^ 2)
  else 0

/-- `AssistedManipulation::reach_cost`: the penalty is accumulated into the
local `cost` variable, but the function's final statement is `return 0.0`. -/
def AssistedManipulation.reach_cost (cfg : AMConfiguration)
    (inp : CostInputs) : ℚ :=
  let _cost := AssistedManipulation.reach_penalty cfg inp
  0

/-- `AssistedManipulation::variable_damping_cost`: the entire body is
commented out and the function returns 0. -/
def AssistedManipulation.variable_damping_cost (_cfg : AMConfiguration)
    (_inp : CostInputs) : ℚ :=
  0

/-- `AssistedManipulation::get_cost`: recompute each enabled component cost
member, sum the four tracked components into `m_cost`, and return it. Returns
the pair of the returned value and the object state after the call. -/
def AssistedManipulation.get_cost (cfg : AMConfiguration) (st : AMState)
    (inp : CostInputs) : ℚ × AMState :=
  let st := if cfg.enable_minimise_power then
      { st with m_power_cost := AssistedManipulation.power_cost cfg inp } else st
  let st := if cfg.enable_maximise_manipulability then
      { st with m_manipulability_cost := AssistedManipulation.manipulability_cost cfg inp }
    else st
  let st := if cfg.enable_joint_limit then
      { st with m_joint_cost := AssistedManipulation.joint_limit_cost cfg inp } else st
  let st := if cfg.enable_reach_limit then
      { st with m_reach_cost := AssistedManipulation.reach_cost cfg inp } else st
  let st := if cfg.enable_variable_damping then
      { st with m_variable_damping_cost := AssistedManipulation.variable_damping_cost cfg inp }
    else st
  let total := st.m_power_cost + st.m_manipulability_cost + st.m_joint_cost + st.m_reach_cost
  (total, { st with m_cost := total })

/-! ## MPPI weighting step (mppi::Trajectory::optimise) -/

/-- Modelled from the spec: the finite rollout costs among the per-cycle cost
vector. The implementation file `mppi.cpp` containing
`mppi::Trajectory::optimise` is not under src/ (only the declaration in
src/src/mppi.hpp is); the weighting step is modelled from §4.E step 4 of the
spec. A cost is `none` when the double is non-finite. -/
def finiteCosts (costs : List (Option ℚ)) : List ℚ := costs.filterMap id

/-- Modelled from the spec: `J_min = min_r J_r`, the minimum over the finite
rollout costs (zero when there is none; the value is then never used because
every weight is zero). -/
def Jmin (costs : List (Option ℚ)) : ℚ :=
  match finiteCosts costs with
  | [] => 0
  | c :: cs => cs.foldl min c

/-- Modelled from the spec: the unnormalised weights
`w_r = exp(−(J_r − J_min)/cost_scale)`, with `w_r = 0` for a non-finite cost.
The real exponential is abstracted as a function `expf`, constrained to be
positive in the theorems. -/
def rawWeights (expf : ℚ → ℚ) (cost_scale : ℚ) (costs : List (Option ℚ)) : List ℚ :=
  costs.map fun J =>
    match J with
    | none => 0
    | some j => expf (-(j - Jmin costs) / cost_scale)

/-- Modelled from the spec: normalise so the weights sum to one; if the sum is
zero, fall back to a uniform weight over the rollouts whose cost is finite. -/
def normalisedWeights (expf : ℚ → ℚ) (cost_scale : ℚ) (costs : List (Option ℚ)) :
    List ℚ :=
  let w := rawWeights expf cost_scale costs
  let s := w.sum
  if s = 0 then
    costs.map (fun J => if J.isSome then 1 / ((finiteCosts costs).length : ℚ) else 0)
  else w.map (fun x => x / s)

/-! ## Concrete states used by the examples -/

/-- A zero-sized placeholder matrix for populating concrete filter states. -/
def zeroMatQ : MatQ := ⟨0, 0, fun _ _ => 0⟩

/-- A placeholder Kalman filter used to populate the filter fields of concrete
`KalmanForecast` states; `forecast` never reads these fields. -/
def dummyFilter : KalmanFilter :=
  ⟨0, 0, zeroMatQ, zeroMatQ, zeroMatQ, zeroMatQ, zeroMatQ, zeroMatQ, zeroMatQ,
   zeroMatQ⟩

/-- A concrete Kalman forecaster state: last update at time 1, horizon 1/2,
time step 1/2, one step, prediction columns [0] and [1]. -/
def kfC3 : KalmanForecast :=
  { m_observed_states := 1
    m_estaimted_states := 1
    m_horison := 1 / 2
    m_time_step := 1 / 2
    m_steps := 1
    m_last_update := 1
    m_filter := dummyFilter
    m_predictor := dummyFilter
    m_prediction := fun n => if n = 0 then [0] else [1] }

/-- A concrete Kalman forecaster state whose horizon lies ahead of the query
times: last update 0, horizon 1, time step 1/2, two steps, prediction column n
holding the single entry n. -/
def kfC3b : KalmanForecast :=
  { m_observed_states := 1
    m_estaimted_states := 1
    m_horison := 1
    m_time_step := 1 / 2
    m_steps := 2
    m_last_update := 0
    m_filter := dummyFilter
    m_predictor := dummyFilter
    m_prediction := fun n => [(n : ℚ)] }

/-! ## Helper lemmas about the AverageForecast buffer -/

/-- In a buffer sorted by timestamp, every timestamp is at most the last one. -/
theorem mem_le_getLast (l : List (ℚ × List ℚ)) (h : l ≠ [])
    (hs : l.Pairwise (fun a b => a.1 ≤ b.1)) :
    ∀ e ∈ l, e.1 ≤ (l.getLast h).1 := by
  induction l with
  | nil => cases h rfl
  | cons a tl ih =>
    intro e he
    cases tl with
    | nil =>
      simp only [List.mem_singleton] at he
      simp [he]
    | cons b tl2 =>
      have htl : (b :: tl2) ≠ [] := List.cons_ne_nil b tl2
      rw [List.getLast_cons htl]
      rcases List.mem_cons.mp he with rfl | hmem
      · exact le_trans
          (List.rel_of_pairwise_cons hs (List.getLast_mem htl))
          le_rfl
      · exact ih htl (hs.of_cons) e hmem

/-- The eviction performed by `clear_old_measurements` keeps exactly the
elements strictly newer than the cutoff, or just the most recent element when
none is newer — provided the buffer is nonempty and sorted by timestamp. -/
theorem drop_evictIndex_eq_claimedKeep (cut : ℚ) (l : List (ℚ × List ℚ))
    (hne : l ≠ []) (hs : l.Pairwise (fun a b => a.1 ≤ b.1)) :
    l.drop (evictIndex cut l) = claimedKeep l cut := by
  induction l with
  | nil => cases hne rfl
  | cons a tl ih =>
    by_cases hp : cut < a.1
    · have hall : ∀ e ∈ a :: tl, (fun e => decide (cut < e.1)) e = true := by
        intro e he
        rcases List.mem_cons.mp he with rfl | hmem
        · simpa using hp
        · have : a.1 ≤ e.1 := List.rel_of_pairwise_cons hs hmem
          simpa using lt_of_lt_of_le hp this
      have hfind : List.findIdx (fun e => decide (cut < e.1)) (a :: tl) = 0 := by
        simp [List.findIdx_cons, hp]
      have hfilter : List.filter (fun e => decide (cut < e.1)) (a :: tl) = a :: tl :=
        List.filter_eq_self.mpr hall
      unfold evictIndex claimedKeep
      simp [hfind, hfilter]
    · have hfind : List.findIdx (fun e => decide (cut < e.1)) (a :: tl) =
          List.findIdx (fun e => decide (cut < e.1)) tl + 1 := by
        simp [List.findIdx_cons, hp]
      have hfa : List.filter (fun e => decide (cut < e.1)) (a :: tl) =
          List.filter (fun e => decide (cut < e.1)) tl := by
        simp [List.filter_cons, hp]
      cases tl with
      | nil =>
        unfold evictIndex claimedKeep
        simp [hfind, hfa]
      | cons b tl2 =>
        have htl : (b :: tl2) ≠ [] := List.cons_ne_nil b tl2
        by_cases hkt : List.findIdx (fun e => decide (cut < e.1)) (b :: tl2) =
            (b :: tl2).length
        · have hfail : ∀ x ∈ b :: tl2, (fun e => decide (cut < e.1)) x = false :=
            List.findIdx_eq_length.mp hkt
          have hfnil : List.filter (fun e => decide (cut < e.1)) (b :: tl2) = [] := by
            rw [List.filter_eq_nil_iff]
            intro x hx
            simpa using hfail x hx
          have hk : evictIndex cut (a :: b :: tl2) = (b :: tl2).length := by
            unfold evictIndex
            simp [hfind, hkt]
          rw [hk, List.drop_length_cons htl]
          unfold claimedKeep
          simp [hfa, hfnil, List.getLast?_cons_cons,
            List.getLast?_eq_getLast (b :: tl2) htl]
        · have hlt : List.findIdx (fun e => decide (cut < e.1)) (b :: tl2) <
              (b :: tl2).length :=
            lt_of_le_of_ne
              (List.findIdx_le_length (fun e : ℚ × List ℚ => decide (cut < e.1))) hkt
          have hk : evictIndex cut (a :: b :: tl2) =
              List.findIdx (fun e => decide (cut < e.1)) (b :: tl2) + 1 := by
            have hne2 : ¬ (List.findIdx (fun e => decide (cut < e.1)) (b :: tl2) + 1 =
                (a :: b :: tl2).length) := by
              have hl := hlt
              simp only [List.length_cons] at hl ⊢
              omega
            simp only [evictIndex, hfind]
            rw [if_neg hne2]
          have hkt2 : evictIndex cut (b :: tl2) =
              List.findIdx (fun e => decide (cut < e.1)) (b :: tl2) := by
            unfold evictIndex
            have hk3 : ¬ (List.findIdx (fun e => decide (cut < e.1)) (b :: tl2) =
                (b :: tl2).length) := hkt
            simp only [List.length_cons] at hk3
            simp [hk3]
          have hih := ih htl (hs.of_cons)
          rw [hkt2] at hih
          have hnotnil : List.filter (fun e => decide (cut < e.1)) (b :: tl2) ≠ [] := by
            intro hnil
            apply hkt
            rw [List.findIdx_eq_length]
            intro x hx
            have hfx := List.filter_eq_nil_iff.mp hnil x hx
            simpa using hfx
          have hck : claimedKeep (b :: tl2) cut =
              List.filter (fun e => decide (cut < e.1)) (b :: tl2) := by
            unfold claimedKeep
            simp [hnotnil]
          rw [hk]
          have hdrop : (a :: b :: tl2).drop
              (List.findIdx (fun e => decide (cut < e.1)) (b :: tl2) + 1) =
              (b :: tl2).drop (List.findIdx (fun e => decide (cut < e.1)) (b :: tl2)) := by
            simp [List.drop_succ_cons]
          rw [hdrop, hih, hck]
          unfold claimedKeep
          simp [hfa, hnotnil]

/-- `claimedKeep` of a nonempty buffer is nonempty. -/
theorem claimedKeep_ne_nil (l : List (ℚ × List ℚ)) (cut : ℚ) (hne : l ≠ []) :
    claimedKeep l cut ≠ [] := by
  unfold claimedKeep
  by_cases hf : l.filter (fun e => decide (cut < e.1)) = []
  · rw [List.getLast?_eq_getLast l hne]
    simp [hf]
  · simp [hf]

/-- `claimedKeep` preserves sortedness. -/
theorem claimedKeep_pairwise (l : List (ℚ × List ℚ)) (cut : ℚ)
    (hs : l.Pairwise (fun a b => a.1 ≤ b.1)) :
    (claimedKeep l cut).Pairwise (fun a b => a.1 ≤ b.1) := by
  unfold claimedKeep
  by_cases hf : l.filter (fun e => decide (cut < e.1)) = []
  · cases hl? : l.getLast? with
    | none => simp [hf, hl?]
    | some e => simp [hf, hl?]
  · simpa [hf] using List.Pairwise.sublist (List.filter_sublist l) hs

/-- Every element of `claimedKeep` came from the buffer. -/
theorem mem_of_mem_claimedKeep (l : List (ℚ × List ℚ)) (cut : ℚ)
    (e : ℚ × List ℚ) (he : e ∈ claimedKeep l cut) : e ∈ l := by
  unfold claimedKeep at he
  by_cases hf : l.filter (fun e => decide (cut < e.1)) = []
  · rw [if_pos hf] at he
    cases hl? : l.getLast? with
    | none => rw [hl?] at he; cases he
    | some x =>
      rw [hl?] at he
      simp only [List.mem_singleton] at he
      subst he
      cases l with
      | nil => cases hl?
      | cons a tl =>
        have := List.getLast?_eq_getLast (a :: tl) (List.cons_ne_nil a tl)
        rw [this] at hl?
        have hx : (a :: tl).getLast (List.cons_ne_nil a tl) = e := by
          injection hl?
        rw [← hx]
        exact List.getLast_mem _
  · rw [if_neg hf] at he
    exact (List.mem_filter.mp he).1

/-- `claimedKeep` keeps the most recent element as the last element. -/
theorem claimedKeep_getLast? (l : List (ℚ × List ℚ)) (cut : ℚ) (hne : l ≠ [])
    (hs : l.Pairwise (fun a b => a.1 ≤ b.1)) :
    (claimedKeep l cut).getLast? = l.getLast? := by
  unfold claimedKeep
  by_cases hf : l.filter (fun e => decide (cut < e.1)) = []
  · rw [if_pos hf, List.getLast?_eq_getLast l hne]
    simp
  · rw [if_neg hf]
    obtain ⟨x, hx⟩ := List.exists_mem_of_ne_nil _ hf
    have hxl := List.mem_filter.mp hx
    have hcutx : cut < x.1 := by simpa using hxl.2
    have hxle : x.1 ≤ (l.getLast hne).1 := mem_le_getLast l hne hs x hxl.1
    have hplast : (fun e => decide (cut < e.1)) (l.getLast hne) = true := by
      simpa using lt_of_lt_of_le hcutx hxle
    conv_rhs => rw [← List.dropLast_append_getLast hne]
    conv_lhs => rw [← List.dropLast_append_getLast hne]
    rw [List.filter_append]
    simp [List.filter_cons, hplast, List.getLast?_concat]

/-- `claimedKeep` leaves a singleton buffer unchanged. -/
theorem claimedKeep_singleton (x : ℚ × List ℚ) (cut : ℚ) :
    claimedKeep [x] cut = [x] := by
  by_cases h : cut < x.1 <;> simp [claimedKeep, h]

/-- When every buffered timestamp is strictly newer than the cutoff, eviction
keeps everything. -/
theorem claimedKeep_eq_self (l : List (ℚ × List ℚ)) (cut : ℚ) (hne : l ≠ [])
    (hall : ∀ e ∈ l, cut < e.1) :
    claimedKeep l cut = l := by
  have hfilter : l.filter (fun e => decide (cut < e.1)) = l :=
    List.filter_eq_self.mpr (fun a ha => by simpa using hall a ha)
  unfold claimedKeep
  simp [hfilter, hne]

/-- When no buffered timestamp is strictly newer than the cutoff, eviction
keeps exactly the most recent element. -/
theorem claimedKeep_eq_getLast (l : List (ℚ × List ℚ)) (cut : ℚ) (hne : l ≠ [])
    (hall : ∀ e ∈ l, ¬ cut < e.1) :
    claimedKeep l cut = [l.getLast hne] := by
  have hfilter : l.filter (fun e => decide (cut < e.1)) = [] :=
    List.filter_eq_nil_iff.mpr (fun a ha => by simpa using hall a ha)
  unfold claimedKeep
  rw [List.getLast?_eq_getLast l hne]
  simp [hfilter]

/-- The most recent buffered timestamp, via `getLast`. -/
theorem newestTime_eq_getLast (af : AverageForecast) (h : af.m_buffer ≠ []) :
    newestTime af = (af.m_buffer.getLast h).1 := by
  unfold newestTime
  rw [List.getLastD_eq_getLast?, List.getLast?_eq_getLast _ h]
  rfl

/-- The buffer after `update(double time)` is exactly the claimed eviction
result (requires the sortedness invariant of reachable states). -/
theorem update_time_buffer (af : AverageForecast) (t : ℚ)
    (hne : af.m_buffer ≠ []) (hs : af.m_buffer.Pairwise (fun a b => a.1 ≤ b.1)) :
    (af.update_time t).m_buffer = claimedKeep af.m_buffer (t - af.m_window) :=
  drop_evictIndex_eq_claimedKeep (t - af.m_window) af.m_buffer hne hs

/-- The invariants hold after construction. -/
theorem inv_init (window : ℚ) (states : ℕ) (hw : 0 ≤ window) :
    (AverageForecast.init window states).Inv := by
  constructor
  · simp [AverageForecast.init]
  · simp [AverageForecast.init]
  · exact hw
  · intro e he
    right
    simp [AverageForecast.init]
  · simp [AverageForecast.init, vmean, vsum, vdivn, List.map_replicate]

/-- The invariants are preserved by the observation-free update. -/
theorem inv_update_time (af : AverageForecast) (hinv : af.Inv) (t : ℚ) :
    (af.update_time t).Inv := by
  have hbuf := update_time_buffer af t hinv.nonempty hinv.sorted
  have hlast : (af.update_time t).m_buffer.getLast? = af.m_buffer.getLast? := by
    rw [hbuf]
    exact claimedKeep_getLast? af.m_buffer (t - af.m_window) hinv.nonempty hinv.sorted
  have hnewest : newestTime (af.update_time t) = newestTime af := by
    unfold newestTime
    rw [List.getLastD_eq_getLast?, List.getLastD_eq_getLast?, hlast]
  constructor
  · rw [hbuf]
    exact claimedKeep_ne_nil af.m_buffer (t - af.m_window) hinv.nonempty
  · rw [hbuf]
    exact claimedKeep_pairwise af.m_buffer (t - af.m_window) hinv.sorted
  · exact hinv.window_nonneg
  · intro e he
    rw [hbuf] at he
    have hel : e ∈ af.m_buffer := mem_of_mem_claimedKeep af.m_buffer (t - af.m_window) e he
    rcases hinv.fresh e hel with hfr | hone
    · left
      rw [hnewest]
      exact hfr
    · right
      obtain ⟨x, hx⟩ := List.length_eq_one.mp hone
      rw [hbuf, hx, claimedKeep_singleton]
      rfl
  · rfl

/-- The invariants are preserved by the observation update. -/
theorem inv_update_obs (af : AverageForecast) (hinv : af.Inv) (m : List ℚ) (t : ℚ) :
    (af.update_obs m t).Inv := by
  by_cases hrej : t < newestTime af
  · have heq : af.update_obs m t = af := by
      unfold AverageForecast.update_obs
      rw [if_pos hrej]
    rw [heq]
    exact hinv
  · have hacc : newestTime af ≤ t := le_of_not_lt hrej
    have hle : ∀ e ∈ af.m_buffer, e.1 ≤ t := by
      intro e he
      have := mem_le_getLast af.m_buffer hinv.nonempty hinv.sorted e he
      rw [← newestTime_eq_getLast af hinv.nonempty] at this
      exact le_trans this hacc
    have hs1 : (af.m_buffer ++ [(t, m)]).Pairwise (fun a b => a.1 ≤ b.1) := by
      rw [List.pairwise_append]
      exact ⟨hinv.sorted, List.pairwise_singleton _ _, by
        intro a ha b hb
        simp only [List.mem_singleton] at hb
        subst hb
        exact hle a ha⟩
    have hne1 : af.m_buffer ++ [(t, m)] ≠ [] := by simp
    have hbuf : (af.update_obs m t).m_buffer =
        claimedKeep (af.m_buffer ++ [(t, m)]) (t - af.m_window) := by
      unfold AverageForecast.update_obs
      rw [if_neg hrej]
      exact drop_evictIndex_eq_claimedKeep (t - af.m_window) (af.m_buffer ++ [(t, m)])
        hne1 hs1
    have hlast1 : (af.update_obs m t).m_buffer.getLast? = some (t, m) := by
      rw [hbuf, claimedKeep_getLast? (af.m_buffer ++ [(t, m)]) (t - af.m_window) hne1 hs1,
        List.getLast?_concat]
    have hnewest1 : newestTime (af.update_obs m t) = t := by
      unfold newestTime
      rw [List.getLastD_eq_getLast?, hlast1]
      rfl
    constructor
    · rw [hbuf]
      exact claimedKeep_ne_nil _ _ hne1
    · rw [hbuf]
      exact claimedKeep_pairwise _ _ hs1
    · have heqw : (af.update_obs m t).m_window = af.m_window := by
        unfold AverageForecast.update_obs
        rw [if_neg hrej]
        rfl
      rw [heqw]
      exact hinv.window_nonneg
    · intro e he
      by_cases hf : (af.m_buffer ++ [(t, m)]).filter
          (fun e => decide ((t - af.m_window) < e.1)) = []
      · right
        rw [hbuf]
        unfold claimedKeep
        rw [if_pos hf, List.getLast?_concat]
        rfl
      · left
        rw [hbuf] at he
        unfold claimedKeep at he
        rw [if_neg hf] at he
        have hpe := (List.mem_filter.mp he).2
        have heqw : (af.update_obs m t).m_window = af.m_window := by
          unfold AverageForecast.update_obs
          rw [if_neg hrej]
          rfl
        rw [hnewest1, heqw]
        simpa using hpe
    · unfold AverageForecast.update_obs
      rw [if_neg hrej]
      rfl

/-- Every reachable `AverageForecast` state satisfies the invariants. -/
theorem reachable_inv (af : AverageForecast) (h : af.Reachable) : af.Inv := by
  induction h with
  | init window states af hcreate =>
    unfold AverageForecast.create at hcreate
    by_cases hw : window < 0
    · rw [if_pos hw] at hcreate
      cases hcreate
    · rw [if_neg hw] at hcreate
      have := Option.some.inj hcreate
      rw [← this]
      exact inv_init window states (le_of_not_lt hw)
  | stepTime af t _ ih => exact inv_update_time af ih t
  | stepObs af m t _ ih => exact inv_update_obs af ih m t

/-- The eviction index always lies inside a nonempty buffer. -/
theorem evictIndex_lt_length (cut : ℚ) (l : List (ℚ × List ℚ)) (hne : l ≠ []) :
    evictIndex cut l < l.length := by
  have hpos : 0 < l.length := List.length_pos.mpr hne
  unfold evictIndex
  by_cases hk : l.findIdx (fun e => decide (cut < e.1)) = l.length
  · rw [if_pos hk]
    omega
  · rw [if_neg hk]
    exact lt_of_le_of_ne (List.findIdx_le_length _) hk

/-- The buffer produced by an accepted observation update. -/
theorem update_obs_buffer_accepted (af : AverageForecast) (m : List ℚ) (t : ℚ)
    (hinv : af.Inv) (hrej : ¬ t < newestTime af) :
    (af.update_obs m t).m_buffer =
      claimedKeep (af.m_buffer ++ [(t, m)]) (t - af.m_window) := by
  have hacc : newestTime af ≤ t := le_of_not_lt hrej
  have hle : ∀ e ∈ af.m_buffer, e.1 ≤ t := by
    intro e he
    have := mem_le_getLast af.m_buffer hinv.nonempty hinv.sorted e he
    rw [← newestTime_eq_getLast af hinv.nonempty] at this
    exact le_trans this hacc
  have hs1 : (af.m_buffer ++ [(t, m)]).Pairwise (fun a b => a.1 ≤ b.1) := by
    rw [List.pairwise_append]
    exact ⟨hinv.sorted, List.pairwise_singleton _ _, by
      intro a ha b hb
      simp only [List.mem_singleton] at hb
      subst hb
      exact hle a ha⟩
  unfold AverageForecast.update_obs
  rw [if_neg hrej]
  exact drop_evictIndex_eq_claimedKeep (t - af.m_window) (af.m_buffer ++ [(t, m)])
    (by simp) hs1

/-- In a reachable state, every buffered timestamp is strictly newer than
`t − window` whenever `t` is older than the newest buffered timestamp. -/
theorem fresh_of_rejected (af : AverageForecast) (hinv : af.Inv) (t : ℚ)
    (hrej : t < newestTime af) :
    ∀ e ∈ af.m_buffer, t - af.m_window < e.1 := by
  intro e he
  rcases hinv.fresh e he with hfr | hone
  · exact lt_trans (sub_lt_sub_right hrej af.m_window) hfr
  · obtain ⟨x, hx⟩ := List.length_eq_one.mp hone
    have hex : e = x := by
      rw [hx] at he
      simpa using he
    have hnx : newestTime af = x.1 := by
      unfold newestTime
      rw [hx]
      rfl
    have : t - af.m_window ≤ t :=
      sub_le_self t hinv.window_nonneg
    rw [hex]
    rw [hnx] at hrej
    exact lt_of_le_of_lt this hrej

/-- C4: for the AVERAGE forecaster, after any `update(time)` or
`update(value, time)` call the buffer retains exactly the observations with
timestamp strictly newer than time − window plus always the most recent one,
the buffer is never empty, one observation-free update whose time is at least
window past the newest observation shrinks the buffer to exactly one element
(so repeated updates with growing time do), and `forecast` returns the
arithmetic mean of the buffered observation vectors. -/
theorem C4_average_forecast (af : AverageForecast) (h : af.Reachable)
    (m : List ℚ) (t s : ℚ) :
    (af.update_time t).m_buffer = claimedKeep af.m_buffer (t - af.m_window) ∧
    (af.update_obs m t).m_buffer =
      claimedKeep (if t < newestTime af then af.m_buffer
                   else af.m_buffer ++ [(t, m)]) (t - af.m_window) ∧
    (af.update_time t).m_buffer ≠ [] ∧
    (af.update_obs m t).m_buffer ≠ [] ∧
    (newestTime af ≤ t - af.m_window → (af.update_time t).m_buffer.length = 1) ∧
    (af.update_time t).forecast s =
      vmean ((af.update_time t).m_buffer.map Prod.snd) ∧
    (af.update_obs m t).forecast s =
      vmean ((af.update_obs m t).m_buffer.map Prod.snd) := by
  have hinv := reachable_inv af h
  have h1 : (af.update_time t).m_buffer = claimedKeep af.m_buffer (t - af.m_window) :=
    update_time_buffer af t hinv.nonempty hinv.sorted
  have h2 : (af.update_obs m t).m_buffer =
      claimedKeep (if t < newestTime af then af.m_buffer
                   else af.m_buffer ++ [(t, m)]) (t - af.m_window) := by
    by_cases hrej : t < newestTime af
    · rw [if_pos hrej]
      have heq : af.update_obs m t = af := by
        unfold AverageForecast.update_obs
        rw [if_pos hrej]
      rw [heq, claimedKeep_eq_self af.m_buffer (t - af.m_window) hinv.nonempty
        (fresh_of_rejected af hinv t hrej)]
    · rw [if_neg hrej]
      exact update_obs_buffer_accepted af m t hinv hrej
  refine ⟨h1, h2, ?_, ?_, ?_, ?_, ?_⟩
  · rw [h1]
    exact claimedKeep_ne_nil af.m_buffer (t - af.m_window) hinv.nonempty
  · rw [h2]
    by_cases hrej : t < newestTime af
    · rw [if_pos hrej]
      exact claimedKeep_ne_nil af.m_buffer (t - af.m_window) hinv.nonempty
    · rw [if_neg hrej]
      exact claimedKeep_ne_nil (af.m_buffer ++ [(t, m)]) (t - af.m_window) (by simp)
  · intro hsh
    have hold : ∀ e ∈ af.m_buffer, ¬ (t - af.m_window < e.1) := by
      intro e he
      have h3 := mem_le_getLast af.m_buffer hinv.nonempty hinv.sorted e he
      rw [← newestTime_eq_getLast af hinv.nonempty] at h3
      exact not_lt.mpr (le_trans h3 hsh)
    rw [h1, claimedKeep_eq_getLast af.m_buffer (t - af.m_window) hinv.nonempty hold]
    rfl
  · rfl
  · by_cases hrej : t < newestTime af
    · have heq : af.update_obs m t = af := by
        unfold AverageForecast.update_obs
        rw [if_pos hrej]
      rw [heq]
      exact hinv.avg
    · unfold AverageForecast.update_obs
      rw [if_neg hrej]
      rfl

/-- Witness for C4: the claim's conclusion holds at a concrete freshly created
forecaster, with the reachability hypothesis discharged at `create 1 1`. -/
theorem C4_average_forecast_witness :
    AverageForecast.create 1 1 = some (AverageForecast.init 1 1) ∧
    ((AverageForecast.init 1 1).update_time 2).m_buffer =
      claimedKeep (AverageForecast.init 1 1).m_buffer
        (2 - (AverageForecast.init 1 1).m_window) :=
  ⟨by norm_num [AverageForecast.create],
   (C4_average_forecast (AverageForecast.init 1 1)
     (AverageForecast.Reachable.init 1 1 (AverageForecast.init 1 1)
       (by norm_num [AverageForecast.create])) [5] 2 0).1⟩

/-- C7: for the AVERAGE forecaster an `update(value, time)` call whose
timestamp is strictly older than the newest buffered timestamp is rejected —
the object (buffer, average, and hence every later forecast) is unchanged —
while an observation stamped exactly at the newest timestamp is appended as
the new most recent buffer entry. -/
theorem C7_stale_observation_rejected (af : AverageForecast) (m : List ℚ) (t s : ℚ) :
    (t < newestTime af →
      af.update_obs m t = af ∧ (af.update_obs m t).forecast s = af.forecast s) ∧
    (t = newestTime af →
      (af.update_obs m t).m_buffer.getLast? = some (t, m)) := by
  constructor
  · intro hrej
    have heq : af.update_obs m t = af := by
      unfold AverageForecast.update_obs
      rw [if_pos hrej]
    exact ⟨heq, by rw [heq]⟩
  · intro heq
    have hrej : ¬ t < newestTime af := by
      rw [heq]
      exact lt_irrefl _
    have hbuf : (af.update_obs m t).m_buffer =
        (af.m_buffer ++ [(t, m)]).drop
          (evictIndex (t - af.m_window) (af.m_buffer ++ [(t, m)])) := by
      unfold AverageForecast.update_obs
      rw [if_neg hrej]
      rfl
    rw [hbuf, List.getLast?_drop,
      if_neg (not_le.mpr (evictIndex_lt_length (t - af.m_window)
        (af.m_buffer ++ [(t, m)]) (by simp))),
      List.getLast?_concat]

/-- Witness for C7: at a concrete buffer holding one observation at time 0, an
update stamped −1 is rejected and an update stamped 0 is appended. -/
theorem C7_stale_observation_rejected_witness :
    ((-1 : ℚ) < newestTime ⟨1, [(0, [5])], [5]⟩) ∧
    AverageForecast.update_obs ⟨1, [(0, [5])], [5]⟩ [7] (-1) = ⟨1, [(0, [5])], [5]⟩ ∧
    ((0 : ℚ) = newestTime ⟨1, [(0, [5])], [5]⟩) ∧
    (AverageForecast.update_obs ⟨1, [(0, [5])], [5]⟩ [7] 0).m_buffer.getLast? =
      some (0, [7]) := by
  refine ⟨by norm_num [newestTime], ?_, by norm_num [newestTime], ?_⟩
  · exact ((C7_stale_observation_rejected ⟨1, [(0, [5])], [5]⟩ [7] (-1) 0).1
      (by norm_num [newestTime])).1
  · exact (C7_stale_observation_rejected ⟨1, [(0, [5])], [5]⟩ [7] 0 0).2
      (by norm_num [newestTime])

/-- C1 (code bug): the matrix built by
`create_euler_state_transition_matrix` is not the Taylor-integration matrix.
At time_step 1, 3 observed states, order 2: the entry at (0, 6) — derivative 0
of coordinate 0 against derivative 2 of coordinate 0 — is 0 where the Taylor
rule gives Δ²/2! = 1/2, because `1 / factorial(i)` is evaluated in integer
arithmetic (0 for i ≥ 2); the first-derivative block lands in row 2 instead of
row 3, because the row index is computed as `derivative * order + state`
instead of `derivative * observed_states + state` (so entry (3, 3) is 0 where
the Taylor rule gives 1, and entry (2, 3) is 1 where the Taylor rule gives 0);
and with 1 observed state and order 2 the loop writes to a row index outside
the matrix. This contradicts the example matrices in the function's own
comment block. -/
theorem C1_transition_matrix_bug :
    (KalmanForecast.create_euler_state_transition_matrix 1 3 2).entry 0 6 = 0 ∧
    taylorTransitionEntry 1 3 2 0 6 = 1 / 2 ∧
    (KalmanForecast.create_euler_state_transition_matrix 1 3 2).entry 3 3 = 0 ∧
    taylorTransitionEntry 1 3 2 3 3 = 1 ∧
    (KalmanForecast.create_euler_state_transition_matrix 1 3 2).entry 2 3 = 1 ∧
    taylorTransitionEntry 1 3 2 2 3 = 0 ∧
    (transitionWrites 1 1 2).any
      (fun w =>
        decide ((KalmanForecast.create_euler_state_transition_matrix 1 1 2).rows ≤ w.1)) =
      true := by
  refine ⟨?_, ?_, ?_, ?_, ?_, ?_, ?_⟩ <;>
    norm_num [KalmanForecast.create_euler_state_transition_matrix, transitionWrites,
      KalmanForecast.factorial, taylorTransitionEntry, List.range_succ, Nat.factorial]

/-- C2: after the weighting step, either every weight is nonnegative and the
weights sum to exactly one, or every weight is zero and every rollout cost was
non-finite; and before normalisation each weight is
exp(−(J_r − J_min)/cost_scale), zero for a non-finite cost. Holds for every
positive exponential function, every cost scale and every cost vector. -/
theorem C2_weight_law (expf : ℚ → ℚ) (hexp : ∀ x, 0 < expf x) (cost_scale : ℚ)
    (costs : List (Option ℚ)) :
    rawWeights expf cost_scale costs =
      costs.map (fun J => J.elim 0 (fun j => expf (-(j - Jmin costs) / cost_scale))) ∧
    (((∀ w ∈ normalisedWeights expf cost_scale costs, 0 ≤ w) ∧
        (normalisedWeights expf cost_scale costs).sum = 1) ∨
      ((∀ w ∈ normalisedWeights expf cost_scale costs, w = 0) ∧
        ∀ J ∈ costs, J = none)) := by
  constructor
  · unfold rawWeights
    congr 1
    funext J
    cases J <;> rfl
  · by_cases hfin : ∃ j : ℚ, some j ∈ costs
    · left
      obtain ⟨j, hj⟩ := hfin
      have hraw_nonneg : ∀ w ∈ rawWeights expf cost_scale costs, 0 ≤ w := by
        intro w hw
        unfold rawWeights at hw
        obtain ⟨J, _, hJw⟩ := List.mem_map.mp hw
        cases J with
        | none => rw [← hJw]
        | some x =>
          rw [← hJw]
          exact le_of_lt (hexp _)
      have hmem : expf (-(j - Jmin costs) / cost_scale) ∈ rawWeights expf cost_scale costs := by
        unfold rawWeights
        exact List.mem_map.mpr ⟨some j, hj, rfl⟩
      have hsum_pos : 0 < (rawWeights expf cost_scale costs).sum :=
        lt_of_lt_of_le (hexp _) (List.single_le_sum hraw_nonneg _ hmem)
      have hsum_ne : (rawWeights expf cost_scale costs).sum ≠ 0 := ne_of_gt hsum_pos
      have hw : normalisedWeights expf cost_scale costs =
          (rawWeights expf cost_scale costs).map
            (fun x => x / (rawWeights expf cost_scale costs).sum) := by
        unfold normalisedWeights
        rw [if_neg hsum_ne]
      constructor
      · intro w hwmem
        rw [hw] at hwmem
        obtain ⟨x, hx, hxw⟩ := List.mem_map.mp hwmem
        rw [← hxw]
        exact div_nonneg (hraw_nonneg x hx) (le_of_lt hsum_pos)
      · rw [hw]
        have : ((rawWeights expf cost_scale costs).map
            (fun x => x / (rawWeights expf cost_scale costs).sum)).sum =
            ((rawWeights expf cost_scale costs).map id).sum *
              ((rawWeights expf cost_scale costs).sum)⁻¹ := by
          rw [← List.sum_map_mul_right]
          congr 1
        rw [this, List.map_id]
        exact mul_inv_cancel₀ hsum_ne
    · right
      have hnone : ∀ J ∈ costs, J = none := by
        intro J hJ
        cases J with
        | none => rfl
        | some x => exact absurd ⟨x, hJ⟩ hfin
      refine ⟨?_, hnone⟩
      have hraw : rawWeights expf cost_scale costs =
          costs.map (fun _ => 0) := by
        unfold rawWeights
        exact List.map_congr_left (fun J hJ => by rw [hnone J hJ])
      have hsum : (rawWeights expf cost_scale costs).sum = 0 := by
        rw [hraw]
        simp
      intro w hwmem
      unfold normalisedWeights at hwmem
      rw [if_pos hsum] at hwmem
      obtain ⟨J, hJ, hJw⟩ := List.mem_map.mp hwmem
      rw [hnone J hJ] at hJw
      simpa using hJw.symm

/-- Witness for C2: the weight law at a concrete positive exponential, unit
cost scale, and the cost vector [finite 0, non-finite]. -/
theorem C2_weight_law_witness :
    (∀ x : ℚ, 0 < (fun _ : ℚ => (1 : ℚ)) x) ∧
    (((∀ w ∈ normalisedWeights (fun _ => 1) 1 [some 0, none], 0 ≤ w) ∧
        (normalisedWeights (fun _ => 1) 1 [some 0, none]).sum = 1) ∨
      ((∀ w ∈ normalisedWeights (fun _ => 1) 1 [some 0, none], w = 0) ∧
        ∀ J ∈ ([some 0, none] : List (Option ℚ)), J = none)) :=
  ⟨fun _ => one_pos,
   (C2_weight_law (fun _ => 1) (fun _ => one_pos) 1 [some 0, none]).2⟩

/-- C3 (counterexample): `forecast` does not clamp the query time to
[last_update, last_update + horizon]. At `kfC3` (last update 1, horizon 1/2,
time step 1/2), the query time 6/5 lies inside [1, 3/2], so the claim requires
the interpolation value [2/5]; the code instead compares the query time with
the horizon duration itself (6/5 > 1/2) and returns the last prediction [1].
A query before last_update trips the assertion (modelled as `none`) instead of
returning the first prediction. -/
theorem C3_forecast_counterexample :
    KalmanForecast.forecast kfC3 (6 / 5) = some [1] ∧
    forecastClaimed kfC3 (6 / 5) = [2 / 5] ∧
    some (forecastClaimed kfC3 (6 / 5)) ≠ KalmanForecast.forecast kfC3 (6 / 5) ∧
    KalmanForecast.forecast kfC3 (1 / 2) = none := by
  refine ⟨?_, ?_, ?_, ?_⟩ <;>
    norm_num [KalmanForecast.forecast, forecastClaimed, kfC3, cppTrunc, vadd, vsmul]

/-- C3 (amended): `forecast(t)` rejects queries before `last_update` via an
assertion (modelled as `none`); for `t` past the configured horizon duration
`m_horison` — compared against the absolute query time, not against
`last_update + horizon` — it returns the last prediction column; otherwise it
returns the linear interpolation, by the fractional part of
`(t − last_update)/Δ`, between prediction columns `⌊(t − last_update)/Δ⌋` and
the next one. -/
theorem C3_forecast_amended (kf : KalmanForecast) (time : ℚ) :
    (time < kf.m_last_update → kf.forecast time = none) ∧
    (kf.m_last_update ≤ time → kf.m_horison < time →
      kf.forecast time = some (kf.m_prediction kf.m_steps)) ∧
    (kf.m_last_update ≤ time → time ≤ kf.m_horison → 0 < kf.m_time_step →
      kf.forecast time =
        some (vadd
          (vsmul (1 - ((time - kf.m_last_update) / kf.m_time_step -
              (⌊(time - kf.m_last_update) / kf.m_time_step⌋ : ℚ)))
            (kf.m_prediction (⌊(time - kf.m_last_update) / kf.m_time_step⌋.toNat)))
          (vsmul ((time - kf.m_last_update) / kf.m_time_step -
              (⌊(time - kf.m_last_update) / kf.m_time_step⌋ : ℚ))
            (kf.m_prediction
              (⌊(time - kf.m_last_update) / kf.m_time_step⌋.toNat + 1))))) := by
  refine ⟨?_, ?_, ?_⟩
  · intro hlt
    unfold KalmanForecast.forecast
    rw [if_pos hlt]
  · intro hle hpast
    unfold KalmanForecast.forecast
    rw [if_neg (not_lt.mpr hle), if_pos hpast]
  · intro hle hin hts
    have ht0 : 0 ≤ (time - kf.m_last_update) / kf.m_time_step :=
      div_nonneg (sub_nonneg.mpr hle) (le_of_lt hts)
    have htr : cppTrunc ((time - kf.m_last_update) / kf.m_time_step) =
        ⌊(time - kf.m_last_update) / kf.m_time_step⌋ := by
      unfold cppTrunc
      rw [if_pos ht0]
    have hfl0 : 0 ≤ ⌊(time - kf.m_last_update) / kf.m_time_step⌋ :=
      Int.floor_nonneg.mpr ht0
    have hup : (⌊(time - kf.m_last_update) / kf.m_time_step⌋ + 1).toNat =
        ⌊(time - kf.m_last_update) / kf.m_time_step⌋.toNat + 1 := by omega
    unfold KalmanForecast.forecast
    rw [if_neg (not_lt.mpr hle), if_neg (not_lt.mpr hin)]
    simp only [htr, hup]

/-- Witness for C3's amended theorem: at `kfC3b` (last update 0, horizon 1,
time step 1/2) the query 3/4 interpolates halfway between prediction columns 1
and 2, giving [3/2]. -/
theorem C3_forecast_amended_witness :
    kfC3b.m_last_update ≤ 3 / 4 ∧ (3 / 4 : ℚ) ≤ kfC3b.m_horison ∧
    (0 : ℚ) < kfC3b.m_time_step ∧
    KalmanForecast.forecast kfC3b (3 / 4) = some [3 / 2] := by
  refine ⟨by norm_num [kfC3b], by norm_num [kfC3b], by norm_num [kfC3b], ?_⟩
  have h := (C3_forecast_amended kfC3b (3 / 4)).2.2
    (by norm_num [kfC3b]) (by norm_num [kfC3b]) (by norm_num [kfC3b])
  rw [h]
  norm_num [kfC3b, vadd, vsmul]

/-- C5: under the eigensolver contract — the solver returns an orthogonal `V`
and eigenvalues `lam` with `Σ = V·diag(lam)·Vᵀ` — the stored transform is
`T = V·lam^{1/2}` and every draw is `mean + T·z`; in particular when `Σ = 0`
every draw equals the mean exactly. The standard-normal samples are abstracted
as the arbitrary vector `z` and `cwiseSqrt` as any `sqrtf` with `sqrtf 0 = 0`. -/
theorem C5_gaussian_zero_covariance (m : ℕ) (sqrtf : ℚ → ℚ) (hs : sqrtf 0 = 0)
    (mean : Fin m → ℚ) (V : Matrix (Fin m) (Fin m) ℚ) (lam : Fin m → ℚ)
    (hV : V * V.transpose = 1)
    (hdecomp : V * Matrix.diagonal lam * V.transpose = 0) :
    (∀ z, gaussianDraw mean (gaussianTransform sqrtf V lam) z =
      mean + (gaussianTransform sqrtf V lam).mulVec z) ∧
    (∀ z, gaussianDraw mean (gaussianTransform sqrtf V lam) z = mean) := by
  have hVtV : V.transpose * V = 1 := Matrix.mul_eq_one_comm.mp hV
  have hlam : Matrix.diagonal lam = 0 := by
    calc Matrix.diagonal lam
        = 1 * Matrix.diagonal lam * 1 := by simp
      _ = V.transpose * V * Matrix.diagonal lam * (V.transpose * V) := by rw [hVtV]
      _ = V.transpose * (V * Matrix.diagonal lam * V.transpose) * V := by
          simp only [Matrix.mul_assoc]
      _ = V.transpose * 0 * V := by rw [hdecomp]
      _ = 0 := by simp
  have hlam0 : ∀ i, lam i = 0 := by
    intro i
    have h := congrFun (congrFun hlam i) i
    simpa [Matrix.diagonal] using h
  have hT : gaussianTransform sqrtf V lam = 0 := by
    unfold gaussianTransform
    have hzero : (fun i => sqrtf (lam i)) = fun _ => (0 : ℚ) :=
      funext fun i => by rw [hlam0 i, hs]
    rw [hzero]
    simp
  refine ⟨fun z => rfl, fun z => ?_⟩
  unfold gaussianDraw
  rw [hT]
  simp

/-- Witness for C5: at dimension one with the identity eigenvector matrix and
zero eigenvalues, a draw with sample 5 returns the mean 2 exactly. -/
theorem C5_gaussian_zero_covariance_witness :
    ((fun _ : ℚ => (0 : ℚ)) 0 = 0) ∧
    ((1 : Matrix (Fin 1) (Fin 1) ℚ) * (1 : Matrix (Fin 1) (Fin 1) ℚ).transpose = 1) ∧
    ((1 : Matrix (Fin 1) (Fin 1) ℚ) * Matrix.diagonal (fun _ => (0 : ℚ)) *
      (1 : Matrix (Fin 1) (Fin 1) ℚ).transpose = 0) ∧
    gaussianDraw (fun _ : Fin 1 => (2 : ℚ))
      (gaussianTransform (fun _ => 0) (1 : Matrix (Fin 1) (Fin 1) ℚ) (fun _ => 0))
      (fun _ => 5) = fun _ => 2 := by
  refine ⟨rfl, by simp, by simp, ?_⟩
  exact (C5_gaussian_zero_covariance 1 (fun _ => 0) rfl (fun _ => 2) 1 (fun _ => 0)
    (by simp) (by simp)).2 (fun _ => 5)

/-- C6: `KalmanFilter::create` produces a filter exactly when every
configuration matrix has the expected shape: the state transition matrix,
transition covariance and initial covariance are states-by-states, the
observation matrix is observed-by-states, the observation covariance is
observed-by-observed, and the initial state is a states-by-one column. -/
theorem C6_kalman_filter_create (configuration : KalmanFilter.Configuration) :
    (KalmanFilter.create configuration).isSome ↔
      (configuration.state_transition_matrix.rows = configuration.states ∧
       configuration.state_transition_matrix.cols = configuration.states ∧
       configuration.transition_covariance.rows = configuration.states ∧
       configuration.transition_covariance.cols = configuration.states ∧
       configuration.observation_matrix.rows = configuration.observed_states ∧
       configuration.observation_matrix.cols = configuration.states ∧
       configuration.observation_covariance.rows = configuration.observed_states ∧
       configuration.observation_covariance.cols = configuration.observed_states ∧
       configuration.initial_state.rows = configuration.states ∧
       configuration.initial_state.cols = 1 ∧
       configuration.initial_covariance.rows = configuration.states ∧
       configuration.initial_covariance.cols = configuration.states) := by
  unfold KalmanFilter.create
  dsimp only
  split
  next h =>
    simp only [check_dimensions, Bool.and_eq_true, beq_iff_eq] at h
    simp only [Option.isSome_some, true_iff]
    tauto
  next h =>
    simp only [check_dimensions, Bool.and_eq_true, beq_iff_eq] at h
    simp only [Option.isSome_none, Bool.false_eq_true, false_iff]
    tauto

/-- C9: the observation-free `KalmanForecast::update(time)` leaves the
prediction buffer, the stored last-update time, the horizon, time step, step
count and the predictor unchanged — hence every subsequent `forecast` query
returns the same value — and its only effect is to replace the internal
filter with the result of one covariance-propagating predict step (estimate
becomes the previously predicted state, the next prediction is the transition
matrix applied to it, and the covariance is propagated). -/
theorem C9_update_time_frame (kf : KalmanForecast) (t : ℚ) :
    (kf.update_time t).m_prediction = kf.m_prediction ∧
    (kf.update_time t).m_last_update = kf.m_last_update ∧
    (kf.update_time t).m_horison = kf.m_horison ∧
    (kf.update_time t).m_time_step = kf.m_time_step ∧
    (kf.update_time t).m_steps = kf.m_steps ∧
    (kf.update_time t).m_predictor = kf.m_predictor ∧
    (∀ s, (kf.update_time t).forecast s = kf.forecast s) ∧
    (kf.update_time t).m_filter = kf.m_filter.predict true ∧
    (kf.m_filter.predict true).m_state = kf.m_filter.m_next_state ∧
    (kf.m_filter.predict true).m_next_state =
      kf.m_filter.m_state_transition_matrix.mul kf.m_filter.m_next_state ∧
    (kf.m_filter.predict true).m_covariance =
      ((kf.m_filter.m_state_transition_matrix.mul kf.m_filter.m_covariance).mul
        kf.m_filter.m_state_transition_matrix.transpose).add
        kf.m_filter.m_transition_covariance ∧
    (kf.m_filter.predict true).m_state_transition_matrix =
      kf.m_filter.m_state_transition_matrix :=
  ⟨rfl, rfl, rfl, rfl, rfl, rfl, fun _ => rfl, rfl, rfl, rfl, rfl, rfl⟩

/-- C8: `AssistedManipulation::reach_cost` computes the reach penalty into a
local variable but returns 0 for every dynamics state, so (starting from the
constructor's zero `m_reach_cost`) enabling `enable_reach_limit` never changes
the total cost returned by `get_cost`, and `m_reach_cost` stays zero after
every call. -/
theorem C8_reach_cost_dead (cfg : AMConfiguration) (st : AMState) (inp : CostInputs) :
    AssistedManipulation.reach_cost cfg inp = 0 ∧
    (st.m_reach_cost = 0 →
      (AssistedManipulation.get_cost { cfg with enable_reach_limit := true } st inp).1 =
        (AssistedManipulation.get_cost { cfg with enable_reach_limit := false } st inp).1 ∧
      ((AssistedManipulation.get_cost cfg st inp).2).m_reach_cost = 0) := by
  obtain ⟨ep, em, ej, er, ev, lj, uj, mr, mnr, mm, mp⟩ := cfg
  refine ⟨rfl, fun h0 => ?_⟩
  unfold AssistedManipulation.get_cost AssistedManipulation.reach_cost
  cases ep <;> cases em <;> cases ej <;> cases er <;> cases ev <;>
    simp [h0, AssistedManipulation.power_cost, AssistedManipulation.manipulability_cost,
      AssistedManipulation.joint_limit_cost]

/-- Witness for C8: at an all-zero configuration, freshly constructed state
and zero dynamics quantities, the flag makes no difference to the returned
cost and the tracked reach cost stays zero. -/
theorem C8_reach_cost_dead_witness :
    (AMState.init 0).m_reach_cost = 0 ∧
    (AssistedManipulation.get_cost
        ⟨true, false, false, true, false, fun _ => ⟨0, 0, 0⟩, fun _ => ⟨0, 0, 0⟩,
         ⟨0, 0, 0⟩, ⟨0, 0, 0⟩, ⟨0, 0, 0⟩, ⟨0, 0, 0⟩⟩
        (AMState.init 0) ⟨0, 0, fun _ => 0, 0⟩).1 =
      (AssistedManipulation.get_cost
        ⟨true, false, false, false, false, fun _ => ⟨0, 0, 0⟩, fun _ => ⟨0, 0, 0⟩,
         ⟨0, 0, 0⟩, ⟨0, 0, 0⟩, ⟨0, 0, 0⟩, ⟨0, 0, 0⟩⟩
        (AMState.init 0) ⟨0, 0, fun _ => 0, 0⟩).1 :=
  ⟨rfl,
   ((C8_reach_cost_dead
      ⟨true, false, false, true, false, fun _ => ⟨0, 0, 0⟩, fun _ => ⟨0, 0, 0⟩,
       ⟨0, 0, 0⟩, ⟨0, 0, 0⟩, ⟨0, 0, 0⟩, ⟨0, 0, 0⟩⟩
      (AMState.init 0) ⟨0, 0, fun _ => 0, 0⟩).2 rfl).1⟩

/-- C10: when the AVERAGE forecaster type is selected, `Forecast::create`
fails whenever the LOCF configuration member is absent (that member, not the
AVERAGE one, is what the guard tests), and when the LOCF member is present the
AVERAGE member is dereferenced without any presence check — an absent AVERAGE
member reaches the undefined dereference. -/
theorem C10_average_checks_locf (configuration : ForecastConfiguration)
    (htype : configuration.type = ForecastType.average) :
    (configuration.locf = none →
      Forecast.create configuration = CreateResult.fail) ∧
    (∀ l, configuration.locf = some l → configuration.average = none →
      Forecast.create configuration = CreateResult.deref_absent) := by
  constructor
  · intro hlocf
    unfold Forecast.create
    rw [htype, hlocf]
    simp
  · intro l hlocf havg
    unfold Forecast.create
    rw [htype, hlocf, havg]
    simp

/-- Witness for C10: with type AVERAGE, an absent LOCF member fails creation
even though the AVERAGE member is present, and a present LOCF member with an
absent AVERAGE member reaches the unchecked dereference. -/
theorem C10_average_checks_locf_witness :
    Forecast.create ⟨ForecastType.average, none, some ⟨1, 1⟩, none⟩ =
      CreateResult.fail ∧
    Forecast.create ⟨ForecastType.average, some ⟨1⟩, none, none⟩ =
      CreateResult.deref_absent :=
  ⟨(C10_average_checks_locf ⟨ForecastType.average, none, some ⟨1, 1⟩, none⟩ rfl).1 rfl,
   (C10_average_checks_locf ⟨ForecastType.average, some ⟨1⟩, none, none⟩ rfl).2 ⟨1⟩ rfl rfl⟩
